import Mathlib

/-!
# Verification of the Tetris core logic (tetris_streamlit_v1.py)

A shallow embedding of the pure game core of the source file: piece
geometry and rotation (`rotate`), collision testing (`does_piece_fit`),
piece locking (`lock_piece`), line clearing (`check_lines`), the four
movement handlers, spawning (`new_piece`), and the module-level tick loop
(`script_run`).  Python integers are modelled as `Int` (positions,
rotation) or `Nat` (cell values, score, counters, which the code keeps
non-negative); the board is a `List (List Nat)` exactly as the source's
list-of-lists `field` (0 = empty, 1..7 = locked piece, 9 = border).
-/

namespace Tetris

/-- `FIELD_WIDTH = 12` from the source. -/
def FIELD_WIDTH : Nat := 12

/-- `FIELD_HEIGHT = 18` from the source. -/
def FIELD_HEIGHT : Nat := 18

/-- The seven 16-character tetromino patterns, verbatim from the source. -/
def tetromino : List String :=
  [ "..X...X...X...X."
  , "..X..XX..X......"
  , ".X...XX...X....."
  , ".....XX..XX....."
  , ".X...X...XX....."
  , "..X...X..XX....."
  , ".X...XX...X....." ]

/-- Character of pattern `n` at flat index `i`; models the Python string
indexing `tetromino[n][pi]`.  Out-of-range lookups return a blank (never
`X`); the index is proved to lie in `[0,16)` at every call site. -/
def patternAt (n : Nat) (i : Int) : Char :=
  (tetromino.getD n "").toList.getD i.toNat ' '

/-- `rotate(px, py, r)` from the source: the flat 4x4 index of local cell
`(px,py)` after rotating by `r` quarter-turns; `r` is reduced mod 4 first
(Python `%` and `Int.emod` both give a non-negative remainder here). -/
def rotate (px py : Nat) (r : Int) : Int :=
  let r4 := r % 4
  if r4 = 0 then py * 4 + px
  else if r4 = 1 then 12 + py - px * 4
  else if r4 = 2 then 15 - py * 4 - px
  else if r4 = 3 then 3 - py + px * 4
  else 0

/-- The inlined occupancy test `tetromino[n][rotate(px,py,r)] == 'X'` used
by `does_piece_fit`, `lock_piece` and the renderer. -/
def occupiesCell (n : Nat) (r : Int) (px py : Nat) : Bool :=
  patternAt n (rotate px py r) = 'X'

/-- Board cell at natural coordinates `(x, y)`: `field[y][x]`, defaulting
to 0 outside the list (in-range at every use, guarded by bounds checks). -/
def cellN (field : List (List Nat)) (x y : Nat) : Nat :=
  (field.getD y []).getD x 0

/-- Board cell at integer coordinates, used after the bounds check in
`does_piece_fit` has ruled out negative coordinates. -/
def cellI (field : List (List Nat)) (x y : Int) : Nat :=
  cellN field x.toNat y.toNat

/-- `does_piece_fit(field, n_tetromino, n_rotation, n_pos_x, n_pos_y)`:
for each of the 16 local cells, if the piece occupies it, the absolute
cell must be inside the field and empty. -/
def does_piece_fit (field : List (List Nat)) (nT : Nat) (nR : Int)
    (nX nY : Int) : Bool :=
  (List.range 4).all fun px =>
    (List.range 4).all fun py =>
      if occupiesCell nT nR px py then
        let fiX := nX + px
        let fiY := nY + py
        if fiX < 0 ∨ (FIELD_WIDTH : Int) ≤ fiX ∨ fiY < 0 ∨ (FIELD_HEIGHT : Int) ≤ fiY
        then false
        else cellI field fiX fiY = 0
      else true

/-- The collision predicate exactly as the specification words it: every
occupied local cell maps inside `[0,W)x[0,H)` onto an empty board cell. -/
def fits_spec (field : List (List Nat)) (nT : Nat) (nR : Int)
    (oX oY : Int) : Prop :=
  ∀ px < 4, ∀ py < 4, occupiesCell nT nR px py = true →
    0 ≤ oX + px ∧ oX + px < FIELD_WIDTH ∧ 0 ≤ oY + py ∧ oY + py < FIELD_HEIGHT ∧
      cellI field (oX + px) (oY + py) = 0

/-- The mutable session state of the source (`st.session_state`), as one
record: board, score, game-over flag, gravity speed and tick counter,
number of locked pieces and the active piece. -/
structure GameState where
  field : List (List Nat)
  score : Nat
  game_over : Bool
  speed : Nat
  speed_counter : Nat
  piece_count : Nat
  current_piece : Nat
  current_rotation : Int
  current_x : Int
  current_y : Int
deriving Repr, DecidableEq

/-- The freshly initialized board of `initialize_game`: 18 rows of 12
cells, all 0 except columns 0 and 11 and row 17, which are 9 (border). -/
def initField : List (List Nat) :=
  (List.range FIELD_HEIGHT).map fun y =>
    (List.range FIELD_WIDTH).map fun x =>
      if x = 0 ∨ x = FIELD_WIDTH - 1 ∨ y = FIELD_HEIGHT - 1 then 9 else 0

/-- `new_piece()` with the randomness injected: sets the active piece to
kind `k` at rotation 0, `x = FIELD_WIDTH // 2 - 2`, `y = 0`, and sets the
game-over flag when the spawn placement does not fit (the unfit piece is
still recorded as the active piece). -/
def new_piece (g : GameState) (k : Nat) : GameState :=
  let g1 := { g with current_piece := k, current_rotation := 0,
                     current_x := (FIELD_WIDTH : Int) / 2 - 2, current_y := 0 }
  if does_piece_fit g1.field g1.current_piece g1.current_rotation
      g1.current_x g1.current_y then g1
  else { g1 with game_over := true }

/-- `initialize_game()` after a fresh session (or a reset, which clears
the whole session state): fresh board, zeroed counters, speed 20, then an
immediate `new_piece` for the injected kind `k`. -/
def init_state (k : Nat) : GameState :=
  new_piece
    { field := initField, score := 0, game_over := false, speed := 20,
      speed_counter := 0, piece_count := 0, current_piece := 0,
      current_rotation := 0, current_x := 0, current_y := 0 } k

/-- The 16 local cells in the order the Python loops visit them
(`px` outer, `py` inner). -/
def pieceCells : List (Nat × Nat) :=
  (List.range 4).flatMap fun px => (List.range 4).map fun py => (px, py)

/-- `field[y][x] = v` on the list-of-lists board (out-of-range writes are
dropped, matching `List.set`; every write of `lock_piece` is in range
because the placement passed `does_piece_fit`). -/
def set_cell (field : List (List Nat)) (x y v : Nat) : List (List Nat) :=
  field.set y ((field.getD y []).set x v)

/-- The board after `lock_piece()`: every occupied local cell of the
piece is written with the value `piece + 1`. -/
def lock_field (field : List (List Nat)) (p : Nat) (r : Int)
    (x y : Int) : List (List Nat) :=
  pieceCells.foldl
    (fun f q =>
      if occupiesCell p r q.1 q.2 then
        set_cell f (x + q.1).toNat (y + q.2).toNat (p + 1)
      else f)
    field

/-- `lock_piece()` on the session state. -/
def lock_piece (g : GameState) : GameState :=
  { g with field := lock_field g.field g.current_piece g.current_rotation
                      g.current_x g.current_y }

/-- The inner loop of `check_lines`: row `y` is full iff every interior
cell `x ∈ [1, FIELD_WIDTH-2]` is non-empty. -/
def full_line (field : List (List Nat)) (y : Nat) : Bool :=
  (List.range' 1 (FIELD_WIDTH - 2)).all fun x => cellN field x y ≠ 0

/-- `lines_to_clear` of `check_lines`: the full rows, scanned from
`FIELD_HEIGHT - 2` down to 0 (the bottom border row is never scanned). -/
def lines_to_clear (field : List (List Nat)) : List Nat :=
  ((List.range (FIELD_HEIGHT - 1)).reverse).filter (full_line field)

/-- The fresh row inserted at the top for each cleared line: interior 0,
columns 0 and `FIELD_WIDTH - 1` set to the border value 9. -/
def fresh_row : List Nat :=
  ((List.replicate FIELD_WIDTH 0).set 0 9).set (FIELD_WIDTH - 1) 9

/-- The `field.pop(y_line)` loop of `check_lines`: erase the collected
indices in the order they were collected (descending). -/
def remove_rows (field : List (List Nat)) (ys : List Nat) :
    List (List Nat) :=
  ys.foldl List.eraseIdx field

/-- `check_lines()`: collect the full rows; if any, add
`(1 << linesCleared) * 100` to the score, pop the full rows and insert
that many fresh rows at the top. -/
def check_lines (g : GameState) : GameState :=
  let ys := lines_to_clear g.field
  if ys.isEmpty then g
  else
    { g with
      field := List.replicate ys.length fresh_row ++ remove_rows g.field ys,
      score := g.score + (1 <<< ys.length) * 100 }

/-- `handle_left()`: move left when the placement one cell to the left
fits, otherwise change nothing. -/
def handle_left (g : GameState) : GameState :=
  if does_piece_fit g.field g.current_piece g.current_rotation
      (g.current_x - 1) g.current_y
  then { g with current_x := g.current_x - 1 } else g

/-- `handle_right()`: move right when the placement one cell to the right
fits, otherwise change nothing. -/
def handle_right (g : GameState) : GameState :=
  if does_piece_fit g.field g.current_piece g.current_rotation
      (g.current_x + 1) g.current_y
  then { g with current_x := g.current_x + 1 } else g

/-- `handle_down()`: move down when the placement one cell below fits and
reset the gravity tick counter, otherwise change nothing. -/
def handle_down (g : GameState) : GameState :=
  if does_piece_fit g.field g.current_piece g.current_rotation
      g.current_x (g.current_y + 1)
  then { g with current_y := g.current_y + 1, speed_counter := 0 } else g

/-- `handle_rotate()`: rotate clockwise when the placement at
`rotation + 1` fits, otherwise change nothing. -/
def handle_rotate (g : GameState) : GameState :=
  if does_piece_fit g.field g.current_piece (g.current_rotation + 1)
      g.current_x g.current_y
  then { g with current_rotation := g.current_rotation + 1 } else g

/-- The `force_down` branch of the module-level game loop, with the next
random kind `k` injected: if the piece fits one cell below, it falls;
otherwise lock it, clear full lines, spawn a new piece, count the lock,
and every 10th locked piece lower the speed by 1 while it exceeds 10. -/
def force_down_step (g : GameState) (k : Nat) : GameState :=
  if does_piece_fit g.field g.current_piece g.current_rotation
      g.current_x (g.current_y + 1) then
    { g with current_y := g.current_y + 1 }
  else
    let g1 := new_piece (check_lines (lock_piece g)) k
    let g2 := { g1 with piece_count := g1.piece_count + 1 }
    if g2.piece_count % 10 = 0 ∧ 10 < g2.speed then
      { g2 with speed := g2.speed - 1 }
    else g2

/-- The four button commands of the sidebar. -/
inductive Cmd where
  | left
  | right
  | down
  | rot
deriving Repr, DecidableEq

/-- Run the button callback for an optional pending command. -/
def apply_cmd (g : GameState) : Option Cmd → GameState
  | some Cmd.left => handle_left g
  | some Cmd.right => handle_right g
  | some Cmd.down => handle_down g
  | some Cmd.rot => handle_rotate g
  | none => g

/-- One full execution of the module-level script with at most one
pending button command and the next random kind `k` injected: when the
game-over flag is set the script stops before any mutation (`st.stop`);
otherwise the command handler runs, the tick counter advances, and when
it reaches the speed it is reset and a gravity step happens. -/
def script_run (g : GameState) (c : Option Cmd) (k : Nat) : GameState :=
  if g.game_over then g
  else
    let g1 := apply_cmd g c
    let g2 := { g1 with speed_counter := g1.speed_counter + 1 }
    if g2.speed ≤ g2.speed_counter then
      force_down_step { g2 with speed_counter := 0 } k
    else g2

/-- The states reachable from a fresh session by running the script, with
arbitrary button commands and random kinds. -/
inductive Reach : GameState → Prop where
  | init (k : Nat) : Reach (init_state k)
  | run (g : GameState) (c : Option Cmd) (k : Nat) :
      Reach g → Reach (script_run g c k)

/-- The border invariant: the board is 18 rows of 12 cells, columns 0 and
11 hold the border value 9 in every row, and the bottom row is all 9. -/
def border_ok (f : List (List Nat)) : Prop :=
  f.length = FIELD_HEIGHT ∧
  (∀ row ∈ f, row.length = FIELD_WIDTH) ∧
  (∀ y < FIELD_HEIGHT, cellN f 0 y = 9 ∧ cellN f (FIELD_WIDTH - 1) y = 9) ∧
  (∀ x < FIELD_WIDTH, cellN f x (FIELD_HEIGHT - 1) = 9)

instance (f : List (List Nat)) : Decidable (border_ok f) := by
  unfold border_ok; infer_instance

/-- The inductive invariant carried by every reachable state: the border
is intact, and a live active piece sits at a placement that passed the
collision test. -/
def GameInv (g : GameState) : Prop :=
  border_ok g.field ∧
  (g.game_over = false →
    does_piece_fit g.field g.current_piece g.current_rotation
      g.current_x g.current_y = true)

/-- A demonstration board: bordered like `initField` but with
row `FIELD_HEIGHT - 2` (the lowest playable row) completely filled. -/
def demoField : List (List Nat) :=
  (List.range FIELD_HEIGHT).map fun y =>
    (List.range FIELD_WIDTH).map fun x =>
      if x = 0 ∨ x = FIELD_WIDTH - 1 ∨ y = FIELD_HEIGHT - 1 then 9
      else if y = FIELD_HEIGHT - 2 then 2 else 0

/-- A session state sitting on `demoField`, used to exercise the
line-clear path on concrete data. -/
def demoState : GameState :=
  { field := demoField, score := 0, game_over := false, speed := 20,
    speed_counter := 0, piece_count := 0, current_piece := 0,
    current_rotation := 0, current_x := 4, current_y := 0 }

/-! ## Component-preservation helper lemmas -/

theorem new_piece_field (g : GameState) (k : Nat) :
    (new_piece g k).field = g.field := by
  unfold new_piece; dsimp only; split <;> rfl

theorem new_piece_score (g : GameState) (k : Nat) :
    (new_piece g k).score = g.score := by
  unfold new_piece; dsimp only; split <;> rfl

theorem new_piece_speed (g : GameState) (k : Nat) :
    (new_piece g k).speed = g.speed := by
  unfold new_piece; dsimp only; split <;> rfl

theorem new_piece_piece_count (g : GameState) (k : Nat) :
    (new_piece g k).piece_count = g.piece_count := by
  unfold new_piece; dsimp only; split <;> rfl

theorem new_piece_current_piece (g : GameState) (k : Nat) :
    (new_piece g k).current_piece = k := by
  unfold new_piece; dsimp only; split <;> rfl

theorem new_piece_current_rotation (g : GameState) (k : Nat) :
    (new_piece g k).current_rotation = 0 := by
  unfold new_piece; dsimp only; split <;> rfl

theorem new_piece_current_x (g : GameState) (k : Nat) :
    (new_piece g k).current_x = (FIELD_WIDTH : Int) / 2 - 2 := by
  unfold new_piece; dsimp only; split <;> rfl

theorem new_piece_current_y (g : GameState) (k : Nat) :
    (new_piece g k).current_y = 0 := by
  unfold new_piece; dsimp only; split <;> rfl

theorem new_piece_game_over (g : GameState) (k : Nat) :
    (new_piece g k).game_over =
      if does_piece_fit g.field k 0 ((FIELD_WIDTH : Int) / 2 - 2) 0
      then g.game_over else true := by
  unfold new_piece; dsimp only; split <;> simp_all

theorem check_lines_speed (g : GameState) :
    (check_lines g).speed = g.speed := by
  unfold check_lines; dsimp only; split <;> rfl

theorem check_lines_speed_counter (g : GameState) :
    (check_lines g).speed_counter = g.speed_counter := by
  unfold check_lines; dsimp only; split <;> rfl

theorem check_lines_piece_count (g : GameState) :
    (check_lines g).piece_count = g.piece_count := by
  unfold check_lines; dsimp only; split <;> rfl

theorem check_lines_game_over (g : GameState) :
    (check_lines g).game_over = g.game_over := by
  unfold check_lines; dsimp only; split <;> rfl

theorem check_lines_active (g : GameState) :
    (check_lines g).current_piece = g.current_piece ∧
    (check_lines g).current_rotation = g.current_rotation ∧
    (check_lines g).current_x = g.current_x ∧
    (check_lines g).current_y = g.current_y := by
  unfold check_lines; dsimp only; split <;> exact ⟨rfl, rfl, rfl, rfl⟩

theorem check_lines_score_eq (g : GameState) :
    (check_lines g).score =
      g.score + (if (lines_to_clear g.field).isEmpty then 0
                 else (1 <<< (lines_to_clear g.field).length) * 100) := by
  unfold check_lines; dsimp only
  split <;> simp_all

/-- The collision test succeeds iff every occupied sub-cell lands inside
the field on an empty cell. -/
theorem does_piece_fit_iff_fits_spec (field : List (List Nat)) (nT : Nat)
    (nR : Int) (oX oY : Int) :
    does_piece_fit field nT nR oX oY = true ↔ fits_spec field nT nR oX oY := by
  unfold does_piece_fit fits_spec
  simp only [List.all_eq_true, List.mem_range]
  constructor
  · intro h px hx py hy hocc
    have h2 := h px hx py hy
    simp only [hocc, if_true] at h2
    split at h2
    · exact absurd h2 (by simp)
    · rename_i hbnd
      push_neg at hbnd
      refine ⟨hbnd.1, hbnd.2.1, hbnd.2.2.1, hbnd.2.2.2, by simpa using h2⟩
  · intro h px hx py hy
    by_cases hocc : occupiesCell nT nR px py = true
    · obtain ⟨h1, h2, h3, h4, h5⟩ := h px hx py hy hocc
      simp only [hocc, if_true]
      rw [if_neg]
      · simpa using h5
      · push_neg
        exact ⟨h1, h2, h3, h4⟩
    · simp only [Bool.not_eq_true] at hocc
      simp [hocc]

theorem lock_piece_parts (g : GameState) :
    (lock_piece g).score = g.score ∧ (lock_piece g).game_over = g.game_over ∧
    (lock_piece g).speed = g.speed ∧
    (lock_piece g).speed_counter = g.speed_counter ∧
    (lock_piece g).piece_count = g.piece_count ∧
    (lock_piece g).current_piece = g.current_piece ∧
    (lock_piece g).current_rotation = g.current_rotation ∧
    (lock_piece g).current_x = g.current_x ∧
    (lock_piece g).current_y = g.current_y :=
  ⟨rfl, rfl, rfl, rfl, rfl, rfl, rfl, rfl, rfl⟩

/-! ## Claims -/

/-- C2: for every local cell and every integer rotation, `rotate` computes
exactly the analytic formula for `r mod 4` (row-major for 0, the three
quarter-turn formulas otherwise), and a piece occupies a local cell iff
its 16-character pattern holds the filled mark `X` at that index. -/
theorem claim_C2_rotate_formula (px py n : Nat) (r : Int)
    (hx : px < 4) (hy : py < 4) :
    (r % 4 = 0 → rotate px py r = py * 4 + px) ∧
    (r % 4 = 1 → rotate px py r = 12 + py - px * 4) ∧
    (r % 4 = 2 → rotate px py r = 15 - py * 4 - px) ∧
    (r % 4 = 3 → rotate px py r = 3 - py + px * 4) ∧
    (occupiesCell n r px py = true ↔ patternAt n (rotate px py r) = 'X') := by
  refine ⟨fun h => ?_, fun h => ?_, fun h => ?_, fun h => ?_, ?_⟩
  · simp [rotate, h]
  · simp [rotate, h]
  · simp [rotate, h]
  · simp [rotate, h]
  · simp [occupiesCell]

/-- Witness for C2 at `px = 1`, `py = 2`, `r = 5` (so `r mod 4 = 1`). -/
theorem claim_C2_rotate_formula_witness :
    rotate 1 2 5 = 12 + 2 - 1 * 4 :=
  (claim_C2_rotate_formula 1 2 0 5 (by decide) (by decide)).2.1 (by decide)

/-- C10: for all local coordinates below 4 and every integer rotation,
`rotate` lands in `[0, 16)`, so every lookup into one of the seven
16-character patterns performed by the collision test and by locking is
in bounds. -/
theorem claim_C10_rotate_in_bounds (px py n : Nat) (r : Int)
    (hx : px < 4) (hy : py < 4) (hn : n < 7) :
    0 ≤ rotate px py r ∧ rotate px py r < 16 ∧
    (rotate px py r).toNat < ((tetromino.getD n "").toList).length := by
  have hb : 0 ≤ rotate px py r ∧ rotate px py r < 16 := by
    have h4 : r % 4 = 0 ∨ r % 4 = 1 ∨ r % 4 = 2 ∨ r % 4 = 3 := by omega
    rcases h4 with h | h | h | h <;> simp [rotate, h] <;> omega
  have hlen : ((tetromino.getD n "").toList).length = 16 := by
    interval_cases n <;> rfl
  exact ⟨hb.1, hb.2, by omega⟩

/-- Witness for C10 at `px = 3`, `py = 0`, `r = -7` (reduced to 1). -/
theorem claim_C10_rotate_in_bounds_witness :
    0 ≤ rotate 3 0 (-7) ∧ rotate 3 0 (-7) < 16 ∧
    (rotate 3 0 (-7)).toNat < ((tetromino.getD 6 "").toList).length :=
  claim_C10_rotate_in_bounds 3 0 6 (-7) (by decide) (by decide) (by decide)

/-- C1: the collision test returns `true` iff every occupied local cell
of the piece maps inside `[0,12) x [0,18)` onto an empty board cell, and
`false` whenever any occupied sub-cell is out of bounds or lands on a
non-empty cell. -/
theorem claim_C1_fit_iff_spec (field : List (List Nat)) (nT : Nat)
    (nR : Int) (oX oY : Int) :
    does_piece_fit field nT nR oX oY = true ↔ fits_spec field nT nR oX oY :=
  does_piece_fit_iff_fits_spec field nT nR oX oY

/-- Witness for C1: on the fresh board the O piece fits at the spawn
position, in both the executable and the specification reading. -/
theorem claim_C1_fit_iff_spec_witness : fits_spec initField 3 0 4 0 :=
  (claim_C1_fit_iff_spec initField 3 0 4 0).mp (by decide)

/-- C6: spawning sets rotation 0, `y = 0`, `x = FIELD_WIDTH / 2 - 2 = 4`,
records the drawn kind as the active piece even when it does not fit, and
raises the game-over flag exactly when the spawn placement fails the
collision test; on the empty bordered board the O piece spawns at
`(4, 0)` and fits. -/
theorem claim_C6_spawn (g : GameState) (k : Nat)
    (h : g.game_over = false) :
    (new_piece g k).current_piece = k ∧
    (new_piece g k).current_rotation = 0 ∧
    (new_piece g k).current_y = 0 ∧
    (new_piece g k).current_x = (FIELD_WIDTH : Int) / 2 - 2 ∧
    (new_piece g k).current_x = 4 ∧
    (new_piece g k).field = g.field ∧
    ((new_piece g k).game_over = true ↔
      does_piece_fit g.field k 0 4 0 = false) ∧
    (init_state 3).current_x = 4 ∧ (init_state 3).current_y = 0 ∧
    does_piece_fit initField 3 0 4 0 = true := by
  have hx : ((FIELD_WIDTH : Int) / 2 - 2) = 4 := by decide
  refine ⟨new_piece_current_piece g k, new_piece_current_rotation g k,
    new_piece_current_y g k, new_piece_current_x g k,
    (new_piece_current_x g k).trans hx, new_piece_field g k, ?_, ?_, ?_, ?_⟩
  · rw [new_piece_game_over, hx, h]
    cases hfit : does_piece_fit g.field k 0 4 0 <;> simp [hfit]
  · decide
  · decide
  · decide

/-- Witness for C6 on the fresh session state before its first spawn. -/
theorem claim_C6_spawn_witness :
    (new_piece (init_state 3) 0).current_piece = 0 ∧
    (new_piece (init_state 3) 0).current_rotation = 0 ∧
    (new_piece (init_state 3) 0).current_y = 0 ∧
    (new_piece (init_state 3) 0).current_x = (FIELD_WIDTH : Int) / 2 - 2 ∧
    (new_piece (init_state 3) 0).current_x = 4 ∧
    (new_piece (init_state 3) 0).field = (init_state 3).field ∧
    ((new_piece (init_state 3) 0).game_over = true ↔
      does_piece_fit (init_state 3).field 0 0 4 0 = false) ∧
    (init_state 3).current_x = 4 ∧ (init_state 3).current_y = 0 ∧
    does_piece_fit initField 3 0 4 0 = true :=
  claim_C6_spawn (init_state 3) 0 (by decide)

/-- C7: each handler tests the collision primitive at its target
placement and on success commits exactly its documented change
(`x - 1`, `x + 1`, `y + 1` with the tick counter reset, `rotation + 1`);
on a failed test the whole state is unchanged.  The stored rotation is
unreduced, and `rotate` reduces it mod 4 at every use site. -/
theorem claim_C7_handlers (g : GameState) :
    (does_piece_fit g.field g.current_piece g.current_rotation
        (g.current_x - 1) g.current_y = true →
      handle_left g = { g with current_x := g.current_x - 1 }) ∧
    (does_piece_fit g.field g.current_piece g.current_rotation
        (g.current_x - 1) g.current_y = false → handle_left g = g) ∧
    (does_piece_fit g.field g.current_piece g.current_rotation
        (g.current_x + 1) g.current_y = true →
      handle_right g = { g with current_x := g.current_x + 1 }) ∧
    (does_piece_fit g.field g.current_piece g.current_rotation
        (g.current_x + 1) g.current_y = false → handle_right g = g) ∧
    (does_piece_fit g.field g.current_piece g.current_rotation
        g.current_x (g.current_y + 1) = true →
      handle_down g = { g with current_y := g.current_y + 1,
                               speed_counter := 0 }) ∧
    (does_piece_fit g.field g.current_piece g.current_rotation
        g.current_x (g.current_y + 1) = false → handle_down g = g) ∧
    (does_piece_fit g.field g.current_piece (g.current_rotation + 1)
        g.current_x g.current_y = true →
      handle_rotate g = { g with
                            current_rotation := g.current_rotation + 1 }) ∧
    (does_piece_fit g.field g.current_piece (g.current_rotation + 1)
        g.current_x g.current_y = false → handle_rotate g = g) ∧
    (∀ px py : Nat, ∀ r : Int, rotate px py r = rotate px py (r % 4)) := by
  refine ⟨fun h => ?_, fun h => ?_, fun h => ?_, fun h => ?_, fun h => ?_,
    fun h => ?_, fun h => ?_, fun h => ?_, fun px py r => ?_⟩
  · simp [handle_left, h]
  · simp [handle_left, h]
  · simp [handle_right, h]
  · simp [handle_right, h]
  · simp [handle_down, h]
  · simp [handle_down, h]
  · simp [handle_rotate, h]
  · simp [handle_rotate, h]
  · unfold rotate
    rw [Int.emod_emod_of_dvd r (dvd_refl 4)]

/-- Witness for C7: on the fresh board the spawned O piece can move
left, and the handler commits exactly `x - 1`. -/
theorem claim_C7_handlers_witness :
    handle_left (init_state 3) =
      { init_state 3 with current_x := (init_state 3).current_x - 1 } :=
  (claim_C7_handlers (init_state 3)).1 (by decide)

/-- C8: the game-over state is terminal: a script run from a state with
the game-over flag set changes nothing, whatever command is pending and
whatever kind the randomness source would supply; only the explicit reset
(`init_state`, which rebuilds the session from scratch) leaves it. -/
theorem claim_C8_game_over_terminal (g : GameState) (c : Option Cmd)
    (k : Nat) (h : g.game_over = true) :
    script_run g c k = g ∧
    (init_state k).score = 0 ∧ (init_state k).speed = 20 ∧
    (init_state k).piece_count = 0 ∧ (init_state k).field = initField := by
  refine ⟨by simp [script_run, h], new_piece_score _ k, new_piece_speed _ k,
    new_piece_piece_count _ k, new_piece_field _ k⟩

/-- Witness for C8 at a concrete game-over state. -/
theorem claim_C8_game_over_terminal_witness :
    script_run { init_state 3 with game_over := true } (some Cmd.down) 5 =
      { init_state 3 with game_over := true } ∧
    (init_state 5).score = 0 ∧ (init_state 5).speed = 20 ∧
    (init_state 5).piece_count = 0 ∧ (init_state 5).field = initField :=
  claim_C8_game_over_terminal { init_state 3 with game_over := true }
    (some Cmd.down) 5 rfl

/-- When the piece fits one cell below, the gravity step only moves it
down. -/
theorem force_down_step_fall_eq (g : GameState) (k : Nat)
    (h : does_piece_fit g.field g.current_piece g.current_rotation
        g.current_x (g.current_y + 1) = true) :
    force_down_step g k = { g with current_y := g.current_y + 1 } := by
  simp [force_down_step, h]

/-- When the piece no longer fits below, the gravity step is
lock–clear–spawn, a piece-count increment, and the conditional speed-up,
given here component by component. -/
theorem force_down_step_lock_eq (g : GameState) (k : Nat)
    (h : does_piece_fit g.field g.current_piece g.current_rotation
        g.current_x (g.current_y + 1) = false) :
    (force_down_step g k).field =
        (new_piece (check_lines (lock_piece g)) k).field ∧
    (force_down_step g k).score =
        (new_piece (check_lines (lock_piece g)) k).score ∧
    (force_down_step g k).game_over =
        (new_piece (check_lines (lock_piece g)) k).game_over ∧
    (force_down_step g k).current_piece =
        (new_piece (check_lines (lock_piece g)) k).current_piece ∧
    (force_down_step g k).current_rotation =
        (new_piece (check_lines (lock_piece g)) k).current_rotation ∧
    (force_down_step g k).current_x =
        (new_piece (check_lines (lock_piece g)) k).current_x ∧
    (force_down_step g k).current_y =
        (new_piece (check_lines (lock_piece g)) k).current_y ∧
    (force_down_step g k).speed_counter =
        (new_piece (check_lines (lock_piece g)) k).speed_counter ∧
    (force_down_step g k).piece_count = g.piece_count + 1 ∧
    (force_down_step g k).speed =
        (if (g.piece_count + 1) % 10 = 0 ∧ 10 < g.speed
         then g.speed - 1 else g.speed) := by
  have hcount : (new_piece (check_lines (lock_piece g)) k).piece_count =
      g.piece_count := by
    rw [new_piece_piece_count, check_lines_piece_count]
    exact (lock_piece_parts g).2.2.2.2.1
  have hspeed : (new_piece (check_lines (lock_piece g)) k).speed =
      g.speed := by
    rw [new_piece_speed, check_lines_speed]
    exact (lock_piece_parts g).2.2.1
  unfold force_down_step
  simp only [h, Bool.false_eq_true, if_false]
  rw [hcount, hspeed]
  split <;>
    exact ⟨rfl, rfl, rfl, rfl, rfl, rfl, rfl, rfl, rfl, rfl⟩

/-- C5: a lock that clears `k` full lines adds exactly `(1 <<< k) * 100`
to the score, with the `k = 0` case adding 0 (the scoring branch is
skipped), so +200/+400/+800/+1600 for 1/2/3/4 lines; and the score
changes nowhere else in a gravity step (falling and locking leave it
untouched). -/
theorem claim_C5_scoring (g : GameState) (k : Nat) :
    ((check_lines g).score =
      g.score + (if (lines_to_clear g.field).isEmpty then 0
                 else (1 <<< (lines_to_clear g.field).length) * 100)) ∧
    (lines_to_clear g.field = [] → (check_lines g).score = g.score) ∧
    ((1 <<< 1) * 100 = 200 ∧ (1 <<< 2) * 100 = 400 ∧
     (1 <<< 3) * 100 = 800 ∧ (1 <<< 4) * 100 = 1600) ∧
    (does_piece_fit g.field g.current_piece g.current_rotation
        g.current_x (g.current_y + 1) = true →
      (force_down_step g k).score = g.score) ∧
    (does_piece_fit g.field g.current_piece g.current_rotation
        g.current_x (g.current_y + 1) = false →
      (lock_piece g).score = g.score ∧
      (force_down_step g k).score = (check_lines (lock_piece g)).score) := by
  refine ⟨check_lines_score_eq g, fun h => ?_, by decide, fun h => ?_,
    fun h => ?_⟩
  · rw [check_lines_score_eq g, h]; rfl
  · simp [force_down_step, h]
  · exact ⟨(lock_piece_parts g).1,
      ((force_down_step_lock_eq g k h).2.1).trans (new_piece_score _ k)⟩

/-- Witness for C5: on the fresh board the spawned piece still falls, and
the gravity step leaves the score unchanged. -/
theorem claim_C5_scoring_witness :
    (force_down_step (init_state 3) 0).score = (init_state 3).score :=
  (claim_C5_scoring (init_state 3) 0).2.2.2.1 (by decide)

/-- C3: one gravity step on a live state: if the piece fits one cell
below it falls (board, score, speed and piece count unchanged);
otherwise the piece is locked, lines are cleared with scoring, a new
piece spawns at `(4, 0)` with rotation 0, the locked-piece count grows by
one and on every 10th lock the speed drops by exactly 1 while above the
floor of 10, below which it never falls. -/
theorem claim_C3_gravity_step (g : GameState) (k : Nat)
    (hg : g.game_over = false) :
    (does_piece_fit g.field g.current_piece g.current_rotation
        g.current_x (g.current_y + 1) = true →
      force_down_step g k = { g with current_y := g.current_y + 1 }) ∧
    (does_piece_fit g.field g.current_piece g.current_rotation
        g.current_x (g.current_y + 1) = false →
      ((force_down_step g k).field =
          (new_piece (check_lines (lock_piece g)) k).field ∧
       (force_down_step g k).score = (check_lines (lock_piece g)).score ∧
       (force_down_step g k).current_piece = k ∧
       (force_down_step g k).current_rotation = 0 ∧
       (force_down_step g k).current_y = 0 ∧
       (force_down_step g k).piece_count = g.piece_count + 1 ∧
       (force_down_step g k).speed =
         (if (g.piece_count + 1) % 10 = 0 ∧ 10 < g.speed
          then g.speed - 1 else g.speed))) ∧
    (10 ≤ g.speed → 10 ≤ (force_down_step g k).speed) ∧
    (g.speed = 10 → (force_down_step g k).speed = 10) := by
  refine ⟨force_down_step_fall_eq g k, fun h => ?_, fun h => ?_,
    fun h => ?_⟩
  · obtain ⟨hf, hs, -, hp, hr, -, hy, -, hc, hv⟩ :=
      force_down_step_lock_eq g k h
    exact ⟨hf, hs.trans (new_piece_score _ k),
      hp.trans (new_piece_current_piece _ k),
      hr.trans (new_piece_current_rotation _ k),
      hy.trans (new_piece_current_y _ k), hc, hv⟩
  · by_cases hfit : does_piece_fit g.field g.current_piece g.current_rotation
        g.current_x (g.current_y + 1) = true
    · rw [force_down_step_fall_eq g k hfit]
      exact h
    · rw [(force_down_step_lock_eq g k (by simpa using hfit)).2.2.2.2.2.2.2.2.2]
      split
      · rename_i hc
        have h2 := hc.2
        omega
      · exact h
  · by_cases hfit : does_piece_fit g.field g.current_piece g.current_rotation
        g.current_x (g.current_y + 1) = true
    · rw [force_down_step_fall_eq g k hfit]
      exact h
    · rw [(force_down_step_lock_eq g k (by simpa using hfit)).2.2.2.2.2.2.2.2.2]
      split
      · rename_i hc
        have h2 := hc.2
        omega
      · exact h

/-- Every collected line index is a playable row, strictly above the
bottom border row. -/
theorem lines_to_clear_lt (f : List (List Nat)) :
    ∀ y ∈ lines_to_clear f, y < FIELD_HEIGHT - 1 := by
  intro y hy
  unfold lines_to_clear at hy
  have hmem := (List.mem_filter.mp hy).1
  simpa using hmem

/-- The collected line indices are strictly descending (the scan runs
from the bottom playable row upward). -/
theorem lines_to_clear_sorted (f : List (List Nat)) :
    (lines_to_clear f).Pairwise (· > ·) := by
  unfold lines_to_clear
  exact List.Pairwise.filter _
    (List.pairwise_reverse.mpr (List.pairwise_lt_range _))

/-- Erasing a strictly descending list of valid indices removes exactly
that many rows. -/
theorem remove_rows_length (ys : List Nat) (f : List (List Nat))
    (hs : ys.Pairwise (· > ·)) (hlt : ∀ y ∈ ys, y < f.length) :
    (remove_rows f ys).length = f.length - ys.length := by
  induction ys generalizing f with
  | nil => rfl
  | cons y ys ih =>
    obtain ⟨hgt, hs'⟩ := List.pairwise_cons.mp hs
    have hy : y < f.length := hlt y (List.mem_cons_self y ys)
    have h1 : (f.eraseIdx y).length = f.length - 1 := by
      rw [List.length_eraseIdx, if_pos hy]
    have hlt' : ∀ z ∈ ys, z < (f.eraseIdx y).length := by
      intro z hz
      have := hgt z hz
      omega
    show (remove_rows (f.eraseIdx y) ys).length = _
    rw [ih (f.eraseIdx y) hs' hlt', h1]
    simp only [List.length_cons]
    omega

/-- Every row surviving the erase loop is a row of the input board. -/
theorem remove_rows_sublist (ys : List Nat) (f : List (List Nat)) :
    (remove_rows f ys).Sublist f := by
  induction ys generalizing f with
  | nil => exact List.Sublist.refl f
  | cons y ys ih =>
    exact (ih (f.eraseIdx y)).trans (List.eraseIdx_sublist f y)

/-- Erasing one index strictly below the last position keeps the last
row. -/
theorem getLast?_eraseIdx_of_lt (f : List (List Nat)) (y : Nat)
    (h : y + 1 < f.length) :
    (f.eraseIdx y).getLast? = f.getLast? := by
  have h2 : (f.drop (y + 1)).getLast? = f.getLast? := by
    rw [List.getLast?_eq_getElem?, List.getLast?_eq_getElem?,
      List.getElem?_drop, List.length_drop]
    congr 1
    omega
  rw [List.eraseIdx_eq_take_drop_succ, List.getLast?_append, h2]
  have hne : f ≠ [] := by
    intro hnil
    rw [hnil] at h
    simp at h
  obtain ⟨v, hv⟩ := Option.isSome_iff_exists.mp
    (List.getLast?_isSome.mpr hne)
  rw [hv]
  rfl

/-- Erasing a strictly descending list of indices, all strictly below the
last position, keeps the last row. -/
theorem remove_rows_getLast? (ys : List Nat) (f : List (List Nat))
    (hs : ys.Pairwise (· > ·)) (hlt : ∀ y ∈ ys, y + 1 < f.length) :
    (remove_rows f ys).getLast? = f.getLast? := by
  induction ys generalizing f with
  | nil => rfl
  | cons y ys ih =>
    obtain ⟨hgt, hs'⟩ := List.pairwise_cons.mp hs
    have hy : y + 1 < f.length := hlt y (List.mem_cons_self y ys)
    have h1 : (f.eraseIdx y).length = f.length - 1 := by
      rw [List.length_eraseIdx, if_pos (by omega)]
    have hlt' : ∀ z ∈ ys, z + 1 < (f.eraseIdx y).length := by
      intro z hz
      have := hgt z hz
      omega
    show (remove_rows (f.eraseIdx y) ys).getLast? = _
    rw [ih (f.eraseIdx y) hs' hlt', getLast?_eraseIdx_of_lt f y hy]

/-- Clearing lines preserves the board height. -/
theorem check_lines_field_length (g : GameState)
    (hlen : g.field.length = FIELD_HEIGHT) :
    (check_lines g).field.length = FIELD_HEIGHT := by
  have hH : FIELD_HEIGHT = 18 := rfl
  have hlt : ∀ z ∈ lines_to_clear g.field, z < g.field.length := by
    intro z hz
    have := lines_to_clear_lt g.field z hz
    omega
  have hcount : (lines_to_clear g.field).length ≤ FIELD_HEIGHT - 1 := by
    unfold lines_to_clear
    calc (((List.range (FIELD_HEIGHT - 1)).reverse).filter
            (full_line g.field)).length
        ≤ ((List.range (FIELD_HEIGHT - 1)).reverse).length :=
          List.length_filter_le _ _
      _ = FIELD_HEIGHT - 1 := by simp
  unfold check_lines
  dsimp only
  split
  · exact hlen
  · simp only [List.length_append, List.length_replicate]
    rw [remove_rows_length _ _ (lines_to_clear_sorted g.field) hlt]
    omega

/-- Clearing lines preserves the bottom (border) row. -/
theorem check_lines_field_getLast (g : GameState)
    (hlen : g.field.length = FIELD_HEIGHT) :
    (check_lines g).field.getLast? = g.field.getLast? := by
  have hH : FIELD_HEIGHT = 18 := rfl
  have hlt1 : ∀ z ∈ lines_to_clear g.field, z + 1 < g.field.length := by
    intro z hz
    have := lines_to_clear_lt g.field z hz
    omega
  unfold check_lines
  dsimp only
  split
  · rfl
  · rw [List.getLast?_append,
      remove_rows_getLast? _ _ (lines_to_clear_sorted g.field) hlt1]
    have hfne : g.field ≠ [] := by
      intro hnil
      rw [hnil] at hlen
      simp [hH] at hlen
    obtain ⟨v, hv⟩ := Option.isSome_iff_exists.mp
      (List.getLast?_isSome.mpr hfne)
    rw [hv]
    rfl

/-- C4: a playable row is full iff every interior cell is non-empty; the
bottom border row is never collected; clearing preserves the board height
and the bottom row; and when exactly one row is full, clearing removes
exactly that row, shifts everything above it down by one and puts one
fresh bordered row on top. -/
theorem claim_C4_line_clearing (g : GameState) (y : Nat)
    (hlen : g.field.length = FIELD_HEIGHT) :
    (full_line g.field y = true ↔
      ∀ x, 1 ≤ x → x ≤ FIELD_WIDTH - 2 → cellN g.field x y ≠ 0) ∧
    (FIELD_HEIGHT - 1) ∉ lines_to_clear g.field ∧
    (check_lines g).field.length = FIELD_HEIGHT ∧
    (check_lines g).field.getLast? = g.field.getLast? ∧
    (lines_to_clear g.field = [y] →
      (check_lines g).field = fresh_row :: g.field.eraseIdx y) := by
  have hW : FIELD_WIDTH = 12 := rfl
  refine ⟨?_, ?_, check_lines_field_length g hlen,
    check_lines_field_getLast g hlen, ?_⟩
  · unfold full_line
    simp only [List.all_eq_true, List.mem_range'_1, decide_eq_true_eq]
    constructor
    · intro h x h1 h2
      exact h x ⟨h1, by omega⟩
    · intro h x hx
      exact h x hx.1 (by omega)
  · intro hmem
    have := lines_to_clear_lt g.field _ hmem
    omega
  · intro h
    simp [check_lines, h, remove_rows]

/-- Witness for C4: on the demonstration board exactly row 16 is full,
and clearing yields one fresh bordered row on top of the board with row
16 erased. -/
theorem claim_C4_line_clearing_witness :
    (check_lines demoState).field =
      fresh_row :: demoState.field.eraseIdx 16 :=
  (claim_C4_line_clearing demoState 16 (by decide)).2.2.2.2 (by decide)

/-- Witness for C3: on the fresh board the spawned O piece fits below and
the gravity step only moves it down one cell. -/
theorem claim_C3_gravity_step_witness :
    force_down_step (init_state 3) 0 =
      { init_state 3 with current_y := (init_state 3).current_y + 1 } :=
  (claim_C3_gravity_step (init_state 3) 0 (by decide)).1 (by decide)

/-! ## Border invariant (C9) -/

/-- Writing row `y` leaves every other row index unchanged. -/
theorem getD_set_ne_row (l : List (List Nat)) (y cy : Nat)
    (row : List Nat) (h : y ≠ cy) :
    (l.set y row).getD cy [] = l.getD cy [] := by
  rw [List.getD_eq_getElem?_getD, List.getElem?_set_ne h,
    ← List.getD_eq_getElem?_getD]

/-- Reading back the written row index. -/
theorem getD_set_self_row (l : List (List Nat)) (y : Nat)
    (row : List Nat) :
    (l.set y row).getD y [] = if y < l.length then row else l.getD y [] := by
  by_cases hl : y < l.length
  · rw [if_pos hl, List.getD_eq_getElem?_getD, List.getElem?_set,
      if_pos rfl, if_pos hl]
    rfl
  · rw [if_neg hl, List.set_eq_of_length_le (by omega)]

/-- Writing cell `x` of a row leaves every other cell unchanged. -/
theorem getD_set_ne_cell (row : List Nat) (x v cx : Nat) (h : x ≠ cx) :
    (row.set x v).getD cx 0 = row.getD cx 0 := by
  rw [List.getD_eq_getElem?_getD, List.getElem?_set_ne h,
    ← List.getD_eq_getElem?_getD]

/-- `set_cell` leaves every other cell of the board unchanged. -/
theorem cellN_set_cell_ne (f : List (List Nat)) (x y v cx cy : Nat)
    (h : x ≠ cx ∨ y ≠ cy) :
    cellN (set_cell f x y v) cx cy = cellN f cx cy := by
  unfold cellN set_cell
  rcases eq_or_ne y cy with hy | hy
  · subst hy
    have hx : x ≠ cx := by tauto
    rw [getD_set_self_row]
    split
    · exact getD_set_ne_cell _ _ _ _ hx
    · rfl
  · rw [getD_set_ne_row _ _ _ _ hy]

/-- The locking loop leaves a cell untouched whenever no occupied local
cell targets it. -/
theorem cellN_lock_foldl (p : Nat) (r : Int) (x y : Int) (cx cy : Nat)
    (ps : List (Nat × Nat)) (f : List (List Nat))
    (h : ∀ q ∈ ps, occupiesCell p r q.1 q.2 = true →
      (x + q.1).toNat ≠ cx ∨ (y + q.2).toNat ≠ cy) :
    cellN (ps.foldl
      (fun f2 q =>
        if occupiesCell p r q.1 q.2 then
          set_cell f2 (x + q.1).toNat (y + q.2).toNat (p + 1)
        else f2) f) cx cy = cellN f cx cy := by
  induction ps generalizing f with
  | nil => rfl
  | cons q ps ih =>
    rw [List.foldl_cons]
    by_cases hq : occupiesCell p r q.1 q.2 = true
    · simp only [hq, if_true]
      rw [ih _ fun q' hq' => h q' (List.mem_cons_of_mem q hq')]
      exact cellN_set_cell_ne f _ _ _ cx cy (h q (List.mem_cons_self q ps) hq)
    · simp only [Bool.not_eq_true] at hq
      simp only [hq, Bool.false_eq_true, if_false]
      exact ih _ fun q' hq' => h q' (List.mem_cons_of_mem q hq')

/-- The locking loop preserves the number of rows. -/
theorem lock_foldl_length (p : Nat) (r : Int) (x y : Int)
    (ps : List (Nat × Nat)) (f : List (List Nat)) :
    (ps.foldl
      (fun f2 q =>
        if occupiesCell p r q.1 q.2 then
          set_cell f2 (x + q.1).toNat (y + q.2).toNat (p + 1)
        else f2) f).length = f.length := by
  induction ps generalizing f with
  | nil => rfl
  | cons q ps ih =>
    rw [List.foldl_cons, ih]
    split
    · exact List.length_set f _ _
    · rfl

/-- The locking loop preserves the width of every row. -/
theorem lock_foldl_rows (p : Nat) (r : Int) (x y : Int)
    (ps : List (Nat × Nat)) (f : List (List Nat))
    (hall : ∀ row ∈ f, row.length = FIELD_WIDTH) :
    ∀ row ∈ ps.foldl
      (fun f2 q =>
        if occupiesCell p r q.1 q.2 then
          set_cell f2 (x + q.1).toNat (y + q.2).toNat (p + 1)
        else f2) f, row.length = FIELD_WIDTH := by
  induction ps generalizing f with
  | nil => exact hall
  | cons q ps ih =>
    rw [List.foldl_cons]
    apply ih
    intro row hrow
    by_cases hq : occupiesCell p r q.1 q.2 = true
    · rw [if_pos hq] at hrow
      by_cases hb : (y + q.2).toNat < f.length
      · unfold set_cell at hrow
        rcases List.mem_or_eq_of_mem_set hrow with hmem | heq
        · exact hall _ hmem
        · subst heq
          rw [List.length_set]
          rw [List.getD_eq_getElem _ _ hb]
          exact hall _ (List.getElem_mem hb)
      · unfold set_cell at hrow
        rw [List.set_eq_of_length_le (by omega)] at hrow
        exact hall _ hrow
    · rw [if_neg hq] at hrow
      exact hall _ hrow

/-- Row-level reading of the column parts of the border invariant. -/
theorem border_ok_row_cells (f : List (List Nat)) (hb : border_ok f) :
    ∀ row ∈ f, row.getD 0 0 = 9 ∧ row.getD (FIELD_WIDTH - 1) 0 = 9 := by
  intro row hrow
  obtain ⟨n, hn, hrow'⟩ := List.getElem_of_mem hrow
  have hn18 : n < FIELD_HEIGHT := by
    rw [← hb.1]
    exact hn
  have hc := hb.2.2.1 n hn18
  unfold cellN at hc
  rw [List.getD_eq_getElem _ _ hn, hrow'] at hc
  exact hc

/-- Locking a placement that passed the collision test never touches a
border cell, so the border invariant survives. -/
theorem lock_preserves_border (f : List (List Nat)) (p : Nat) (r : Int)
    (x y : Int) (hb : border_ok f)
    (hfit : does_piece_fit f p r x y = true) :
    border_ok (lock_field f p r x y) := by
  have hW : FIELD_WIDTH = 12 := rfl
  have hH : FIELD_HEIGHT = 18 := rfl
  have hspec := (does_piece_fit_iff_fits_spec f p r x y).mp hfit
  have hq4 : ∀ q ∈ pieceCells, q.1 < 4 ∧ q.2 < 4 := by decide
  obtain ⟨hlen, hrows, hcols, hbot⟩ := hb
  have havoid : ∀ cx cy : Nat, cellN f cx cy = 9 →
      ∀ q ∈ pieceCells, occupiesCell p r q.1 q.2 = true →
        (x + q.1).toNat ≠ cx ∨ (y + q.2).toNat ≠ cy := by
    intro cx cy h9 q hq hocc
    obtain ⟨h1, h2, h3, h4, h5⟩ :=
      hspec q.1 (hq4 q hq).1 q.2 (hq4 q hq).2 hocc
    by_contra hcon
    push_neg at hcon
    unfold cellI at h5
    rw [hcon.1, hcon.2] at h5
    rw [h5] at h9
    exact absurd h9 (by decide)
  refine ⟨?_, ?_, ?_, ?_⟩
  · unfold lock_field
    rw [lock_foldl_length]
    exact hlen
  · unfold lock_field
    exact lock_foldl_rows p r x y pieceCells f hrows
  · intro cy hcy
    refine ⟨?_, ?_⟩
    · unfold lock_field
      rw [cellN_lock_foldl p r x y 0 cy pieceCells f
        (havoid 0 cy (hcols cy hcy).1)]
      exact (hcols cy hcy).1
    · unfold lock_field
      rw [cellN_lock_foldl p r x y (FIELD_WIDTH - 1) cy pieceCells f
        (havoid (FIELD_WIDTH - 1) cy (hcols cy hcy).2)]
      exact (hcols cy hcy).2
  · intro cx hcx
    unfold lock_field
    rw [cellN_lock_foldl p r x y cx (FIELD_HEIGHT - 1) pieceCells f
      (havoid cx (FIELD_HEIGHT - 1) (hbot cx hcx))]
    exact hbot cx hcx

/-- Clearing lines keeps the border invariant: surviving rows come from
the old board, inserted rows are fresh bordered rows, and the bottom
border row is kept in place. -/
theorem check_lines_preserves_border (g : GameState)
    (hb : border_ok g.field) : border_ok (check_lines g).field := by
  have hH : FIELD_HEIGHT = 18 := rfl
  have hlen := hb.1
  have hlen' := check_lines_field_length g hlen
  have hlast := check_lines_field_getLast g hlen
  have hmemf : ∀ row ∈ (check_lines g).field,
      row.length = FIELD_WIDTH ∧ row.getD 0 0 = 9 ∧
        row.getD (FIELD_WIDTH - 1) 0 = 9 := by
    intro row hrow
    unfold check_lines at hrow
    dsimp only at hrow
    split at hrow
    · exact ⟨hb.2.1 row hrow, border_ok_row_cells g.field hb row hrow⟩
    · rw [List.mem_append] at hrow
      rcases hrow with h | h
      · rw [(List.mem_replicate.mp h).2]
        refine ⟨?_, ?_, ?_⟩ <;> decide
      · have hmem : row ∈ g.field :=
          List.Sublist.mem h (remove_rows_sublist _ _)
        exact ⟨hb.2.1 row hmem, border_ok_row_cells g.field hb row hmem⟩
  refine ⟨hlen', fun row hrow => (hmemf row hrow).1, ?_, ?_⟩
  · intro cy hcy
    have hcy' : cy < (check_lines g).field.length := by
      rw [hlen']
      exact hcy
    have hmem : (check_lines g).field.getD cy [] ∈ (check_lines g).field := by
      rw [List.getD_eq_getElem _ _ hcy']
      exact List.getElem_mem hcy'
    exact ⟨(hmemf _ hmem).2.1, (hmemf _ hmem).2.2⟩
  · intro cx hcx
    have h17 : (check_lines g).field.getD (FIELD_HEIGHT - 1) [] =
        g.field.getD (FIELD_HEIGHT - 1) [] := by
      rw [List.getD_eq_getElem?_getD, List.getD_eq_getElem?_getD]
      have e1 : (check_lines g).field.getLast? =
          (check_lines g).field[(FIELD_HEIGHT - 1 : Nat)]? := by
        rw [List.getLast?_eq_getElem?, hlen']
      have e2 : g.field.getLast? = g.field[(FIELD_HEIGHT - 1 : Nat)]? := by
        rw [List.getLast?_eq_getElem?, hlen]
      rw [← e1, ← e2, hlast]
    unfold cellN
    rw [h17]
    exact hb.2.2.2 cx hcx

/-- A freshly spawned piece that leaves the game-over flag clear sits at
a placement that passed the collision test. -/
theorem new_piece_fit_inv (g : GameState) (k : Nat) :
    (new_piece g k).game_over = false →
    does_piece_fit (new_piece g k).field (new_piece g k).current_piece
      (new_piece g k).current_rotation (new_piece g k).current_x
      (new_piece g k).current_y = true := by
  unfold new_piece
  dsimp only
  split
  · rename_i h
    exact fun _ => h
  · intro h
    exact absurd h (by simp)

/-- The left move preserves the game invariant and the game-over flag. -/
theorem handle_left_inv (g : GameState) (h : GameInv g) :
    GameInv (handle_left g) ∧ (handle_left g).game_over = g.game_over := by
  obtain ⟨hb, hf⟩ := h
  unfold handle_left
  split
  · rename_i hc
    exact ⟨⟨hb, fun _ => hc⟩, rfl⟩
  · exact ⟨⟨hb, hf⟩, rfl⟩

/-- The right move preserves the game invariant and the game-over flag. -/
theorem handle_right_inv (g : GameState) (h : GameInv g) :
    GameInv (handle_right g) ∧ (handle_right g).game_over = g.game_over := by
  obtain ⟨hb, hf⟩ := h
  unfold handle_right
  split
  · rename_i hc
    exact ⟨⟨hb, fun _ => hc⟩, rfl⟩
  · exact ⟨⟨hb, hf⟩, rfl⟩

/-- The soft drop preserves the game invariant and the game-over flag. -/
theorem handle_down_inv (g : GameState) (h : GameInv g) :
    GameInv (handle_down g) ∧ (handle_down g).game_over = g.game_over := by
  obtain ⟨hb, hf⟩ := h
  unfold handle_down
  split
  · rename_i hc
    exact ⟨⟨hb, fun _ => hc⟩, rfl⟩
  · exact ⟨⟨hb, hf⟩, rfl⟩

/-- The rotation preserves the game invariant and the game-over flag. -/
theorem handle_rotate_inv (g : GameState) (h : GameInv g) :
    GameInv (handle_rotate g) ∧
      (handle_rotate g).game_over = g.game_over := by
  obtain ⟨hb, hf⟩ := h
  unfold handle_rotate
  split
  · rename_i hc
    exact ⟨⟨hb, fun _ => hc⟩, rfl⟩
  · exact ⟨⟨hb, hf⟩, rfl⟩

/-- Any pending command preserves the game invariant and the game-over
flag. -/
theorem apply_cmd_inv (g : GameState) (c : Option Cmd) (h : GameInv g) :
    GameInv (apply_cmd g c) ∧ (apply_cmd g c).game_over = g.game_over := by
  match c with
  | none => exact ⟨h, rfl⟩
  | some Cmd.left => exact handle_left_inv g h
  | some Cmd.right => exact handle_right_inv g h
  | some Cmd.down => exact handle_down_inv g h
  | some Cmd.rot => exact handle_rotate_inv g h

/-- One gravity step from a live invariant state keeps the invariant:
falling keeps the board; locking happens at a fit placement, so the
border survives the lock and the clear, and the spawn re-establishes the
fit clause. -/
theorem force_down_step_inv (g : GameState) (k : Nat) (h : GameInv g)
    (hgo : g.game_over = false) : GameInv (force_down_step g k) := by
  by_cases hfit : does_piece_fit g.field g.current_piece g.current_rotation
      g.current_x (g.current_y + 1) = true
  · rw [force_down_step_fall_eq g k hfit]
    exact ⟨h.1, fun _ => hfit⟩
  · have hfit' : does_piece_fit g.field g.current_piece g.current_rotation
        g.current_x (g.current_y + 1) = false := by
      simpa using hfit
    obtain ⟨hf, -, hgo2, hp, hr, hx, hy, -, -, -⟩ :=
      force_down_step_lock_eq g k hfit'
    have hb1 : border_ok (lock_piece g).field :=
      lock_preserves_border g.field g.current_piece g.current_rotation
        g.current_x g.current_y h.1 (h.2 hgo)
    have hb2 : border_ok (check_lines (lock_piece g)).field :=
      check_lines_preserves_border (lock_piece g) hb1
    constructor
    · rw [hf, new_piece_field]
      exact hb2
    · intro hG
      rw [hf, hp, hr, hx, hy]
      exact new_piece_fit_inv (check_lines (lock_piece g)) k
        (by rw [← hgo2]; exact hG)

/-- One whole script run preserves the game invariant. -/
theorem script_run_inv (g : GameState) (c : Option Cmd) (k : Nat)
    (h : GameInv g) : GameInv (script_run g c k) := by
  unfold script_run
  split
  · exact h
  · rename_i hgo
    have hgo' : g.game_over = false := by
      cases hgb : g.game_over
      · rfl
      · exact absurd hgb hgo
    dsimp only
    obtain ⟨hc1, hc2⟩ := apply_cmd_inv g c h
    split
    · exact force_down_step_inv _ k ⟨hc1.1, hc1.2⟩ (hc2.trans hgo')
    · exact ⟨hc1.1, hc1.2⟩

/-- Every reachable state satisfies the game invariant. -/
theorem reach_inv (g : GameState) (h : Reach g) : GameInv g := by
  induction h with
  | init k =>
    constructor
    · have he : (init_state k).field = initField := new_piece_field _ k
      rw [he]
      decide
    · exact new_piece_fit_inv _ k
  | run g c k hr ih => exact script_run_inv g c k ih

/-- C9: in every reachable state the border is intact (columns 0 and 11
and row 17 hold the border value in an 18x12 board), and a live piece,
which passed the collision test, occupies no border cell. -/
theorem claim_C9_border_invariant (g : GameState) (h : Reach g) :
    border_ok g.field ∧
    (g.game_over = false →
      ∀ px < 4, ∀ py < 4,
        occupiesCell g.current_piece g.current_rotation px py = true →
          g.current_x + px ≠ 0 ∧
          g.current_x + px ≠ (FIELD_WIDTH : Int) - 1 ∧
          g.current_y + py ≠ (FIELD_HEIGHT : Int) - 1) := by
  have hW : FIELD_WIDTH = 12 := rfl
  have hH : FIELD_HEIGHT = 18 := rfl
  obtain ⟨hb, hfit⟩ := reach_inv g h
  refine ⟨hb, fun hgo px hx py hy hocc => ?_⟩
  have hspec := (does_piece_fit_iff_fits_spec g.field g.current_piece
    g.current_rotation g.current_x g.current_y).mp (hfit hgo)
  obtain ⟨h1, h2, h3, h4, h5⟩ := hspec px hx py hy hocc
  obtain ⟨hlen, hrows, hcols, hbot⟩ := hb
  unfold cellI at h5
  refine ⟨?_, ?_, ?_⟩
  · intro he
    have h9 := (hcols (g.current_y + py).toNat (by omega)).1
    rw [he] at h5
    have h0 : cellN g.field 0 (g.current_y + py).toNat = 0 := h5
    rw [h0] at h9
    exact absurd h9 (by decide)
  · intro he
    have h9 := (hcols (g.current_y + py).toNat (by omega)).2
    rw [he] at h5
    have h0 : cellN g.field (FIELD_WIDTH - 1) (g.current_y + py).toNat =
        0 := by
      rw [hW]
      exact h5
    rw [h0] at h9
    exact absurd h9 (by decide)
  · intro he
    have h9 := hbot (g.current_x + px).toNat (by omega)
    rw [he] at h5
    have h0 : cellN g.field (g.current_x + px).toNat (FIELD_HEIGHT - 1) =
        0 := by
      rw [hH]
      exact h5
    rw [h0] at h9
    exact absurd h9 (by decide)

/-- Witness for C9 at the freshly initialized session. -/
theorem claim_C9_border_invariant_witness :
    border_ok (init_state 0).field ∧
    ((init_state 0).game_over = false →
      ∀ px < 4, ∀ py < 4,
        occupiesCell (init_state 0).current_piece
            (init_state 0).current_rotation px py = true →
          (init_state 0).current_x + px ≠ 0 ∧
          (init_state 0).current_x + px ≠ (FIELD_WIDTH : Int) - 1 ∧
          (init_state 0).current_y + py ≠ (FIELD_HEIGHT : Int) - 1) :=
  claim_C9_border_invariant (init_state 0) (Reach.init 0)

end Tetris
